import Mathlib

/-!
Verification of the MASE protocol core against its specification.

This file gives a shallow embedding, in Lean 4, of the parts of the MASE
(multi-agent Socratic ensemble) orchestrator that the specification makes
quantified claims about: the turn schedulers (`orchestrator.py`,
`interactive_orchestrator.py`), the voice-bleed stripper, the session
logger and its checkpoint writes (`session_logger.py`), the LLM client's
retry loop (`ollama_client.py`), the basin history and detector
(`basins.py`), and the affective composite (`affective.py`, `basins.py`).

Strings are modelled as lists of characters, Python floats as exact
rationals (reals only where `tanh` is applied), dictionaries as ordered
association lists or total functions, and the seeded random generator as
a stream of rationals in `[0, 1)` consumed one draw at a time.
-/

namespace MASE

/-- Python strings are modelled as lists of characters. -/
abbrev Str := List Char

/-- Whitespace characters: the ASCII class matched by the regex `\s` and
trimmed by Python's `str.strip()`. -/
def isSpaceChar (c : Char) : Bool :=
  c = ' ' || c = '\t' || c = '\n' || c = '\r' || c = '\x0b' || c = '\x0c'

/-- Lower-case an entire string, as Python's `str.lower()`. -/
def lowerStr (s : Str) : Str := s.map Char.toLower

/-- Word character for the regex `\w` (ASCII fragment): letter, digit or
underscore. -/
def isWordChar (c : Char) : Bool := c.isAlpha || c.isDigit || c = '_'

/-- Python's `str.capitalize()`: first character upper-cased, the rest
lower-cased. -/
def capitalize : Str → Str
  | [] => []
  | c :: rest => c.toUpper :: lowerStr rest

/-- Does `s` start with the literal `pat` (case-sensitive)? -/
def strStartsWith : Str → Str → Bool
  | _, [] => true
  | [], _ :: _ => false
  | a :: as, b :: bs => (a = b) && strStartsWith as bs

/-- Python's substring test `needle in hay`. -/
def strContains : Str → Str → Bool
  | [], needle => needle.isEmpty
  | c :: rest, needle => strStartsWith (c :: rest) needle || strContains rest needle

/-- Match a literal pattern case-insensitively at the head of the input,
returning the remainder on success. -/
def matchCI : Str → Str → Option Str
  | [], s => some s
  | _ :: _, [] => none
  | p :: ps, c :: cs => if p.toLower = c.toLower then matchCI ps cs else none

/-- Remove leading whitespace (`\s*` anchored at the start, and the left
half of `str.strip()`). -/
def trimLeft (s : Str) : Str := s.dropWhile isSpaceChar

/-- Remove trailing whitespace (the right half of `str.strip()`). -/
def trimRight (s : Str) : Str := (s.reverse.dropWhile isSpaceChar).reverse

/-- Python's `str.strip()`. -/
def pyStrip (s : Str) : Str := trimRight (trimLeft s)

/-- Match `\s+`: at least one whitespace character, consumed greedily. -/
def matchSpaces1 (s : Str) : Option Str :=
  match s with
  | c :: rest => if isSpaceChar c then some (rest.dropWhile isSpaceChar) else none
  | [] => none

/-- Consume one optional character from a class, as the regex `[..]?`
(greedy). -/
def consumeOptClass (cls : List Char) (s : Str) : Str :=
  match s with
  | c :: rest => if c ∈ cls then rest else s
  | [] => []

/-- Matcher for `^\s*{name}:\s*` (IGNORECASE), from
`interactive_orchestrator.strip_voice_bleed`. -/
def matchNameColon (name s : Str) : Option Str :=
  (matchCI name (trimLeft s)).bind fun r₁ =>
    match r₁ with
    | ':' :: r₂ => some (r₂.dropWhile isSpaceChar)
    | _ => none

/-- Matcher for `^\s*As {name}[,:]?\s*` (IGNORECASE). -/
def matchAsName (name s : Str) : Option Str :=
  (matchCI ('A' :: 's' :: ' ' :: name) (trimLeft s)).map fun r₁ =>
    (consumeOptClass [',', ':'] r₁).dropWhile isSpaceChar

/-- Matcher for `^\s*As {name} I\s+` (IGNORECASE); the caller replaces the
match with `"I "`. -/
def matchAsNameI (name s : Str) : Option Str :=
  (matchCI ('A' :: 's' :: ' ' :: name) (trimLeft s)).bind fun r₁ =>
    (matchCI [' ', 'I'] r₁).bind fun r₂ => matchSpaces1 r₂

/-- Matcher for `^\s*{name} here[.,]?\s*` (IGNORECASE). -/
def matchNameHere (name s : Str) : Option Str :=
  (matchCI (name ++ [' ', 'h', 'e', 'r', 'e']) (trimLeft s)).map fun r₁ =>
    (consumeOptClass ['.', ','] r₁).dropWhile isSpaceChar

/-- Matcher for `^\s*I would respond:\s*` (IGNORECASE). -/
def matchIWouldRespond (s : Str) : Option Str :=
  (matchCI ("I would respond:".toList) (trimLeft s)).map
    fun r₁ => r₁.dropWhile isSpaceChar

/-- Apply one anchored `re.sub`: since every pattern is anchored at `^`
without MULTILINE, at most one occurrence is replaced. -/
def applySub (m : Str → Option Str) (repl : Str) (s : Str) : Str :=
  match m s with
  | some rest => repl ++ rest
  | none => s

/-- The five substitutions of `strip_voice_bleed`, in source order, before
the final `str.strip()`. -/
def voiceBleedPass (name : Str) (content : Str) : Str :=
  let c1 := applySub (matchNameColon name) [] content
  let c2 := applySub (matchAsName name) [] c1
  let c3 := applySub (matchAsNameI name) ['I', ' '] c2
  let c4 := applySub (matchNameHere name) [] c3
  applySub matchIWouldRespond [] c4

/-- `strip_voice_bleed(content, agent_id)` from
`interactive_orchestrator.py`: capitalize the agent id, apply the five
anchored substitutions in order, then `str.strip()` the result. -/
def stripVoiceBleed (agentId : Str) (content : Str) : Str :=
  pyStrip (voiceBleedPass (capitalize agentId) content)

theorem dropWhile_self_idem (p : Char → Bool) (l : List Char) :
    (l.dropWhile p).dropWhile p = l.dropWhile p := by
  induction l with
  | nil => rfl
  | cons c t ih =>
    by_cases h : p c <;> simp [List.dropWhile_cons, h, ih]

theorem dropWhile_append_last (p : Char → Bool) (xs : List Char) (c : Char) :
    (xs ++ [c]).dropWhile p = [] ∨
      ∃ ys, (xs ++ [c]).dropWhile p = ys ++ [c] := by
  induction xs with
  | nil =>
    by_cases h : p c
    · exact Or.inl (by simp [List.dropWhile_cons, h])
    · exact Or.inr ⟨[], by simp [List.dropWhile_cons, h]⟩
  | cons x t ih =>
    by_cases h : p x
    · simpa [List.dropWhile_cons, h] using ih
    · exact Or.inr ⟨x :: t, by simp [List.dropWhile_cons, h]⟩

theorem dropWhile_length_le (p : Char → Bool) (l : List Char) :
    (l.dropWhile p).length ≤ l.length := by
  induction l with
  | nil => simp
  | cons c t ih =>
    by_cases h : p c
    · simp only [List.dropWhile_cons, h, if_pos, List.length_cons]
      omega
    · simp [List.dropWhile_cons, h]

theorem trimLeft_trimRight_of_fixed {u : Str} (h : trimLeft u = u) :
    trimLeft (trimRight u) = trimRight u := by
  cases u with
  | nil => rfl
  | cons c t =>
    have hc : ¬ isSpaceChar c := by
      intro hpc
      have hlen := congrArg List.length h
      simp only [trimLeft, List.dropWhile_cons, hpc, if_pos] at hlen
      have := dropWhile_length_le isSpaceChar t
      simp at hlen
      omega
    rcases dropWhile_append_last isSpaceChar t.reverse c with h0 | ⟨ys, hys⟩
    · simp [trimRight, h0, trimLeft]
    · simp only [trimRight, List.reverse_cons, hys, List.reverse_append,
        List.reverse_cons, List.reverse_nil, List.nil_append]
      simp [trimLeft, List.dropWhile_cons, hc]

theorem trimRight_idem (v : Str) : trimRight (trimRight v) = trimRight v := by
  simp [trimRight, List.reverse_reverse, dropWhile_self_idem]

theorem trimLeft_idem (s : Str) : trimLeft (trimLeft s) = trimLeft s :=
  dropWhile_self_idem isSpaceChar s

theorem pyStrip_idem (s : Str) : pyStrip (pyStrip s) = pyStrip s := by
  unfold pyStrip
  rw [trimLeft_trimRight_of_fixed (trimLeft_idem s)]
  exact trimRight_idem _

theorem pyStrip_stripVoiceBleed (aid x : Str) :
    pyStrip (stripVoiceBleed aid x) = stripVoiceBleed aid x := by
  unfold stripVoiceBleed
  exact pyStrip_idem _

/-- Claim C2, counterexample: the voice-bleed stripper is not idempotent.
For agent id `orin` and input `"Orin: Orin: hi"`, one application yields
`"Orin: hi"` (the anchored substitution fires once), while a second
application strips the now-exposed prefix again, yielding `"hi"`. -/
theorem strip_voice_bleed_not_idempotent :
    stripVoiceBleed ("orin".toList) ("Orin: Orin: hi".toList) =
        ("Orin: hi".toList) ∧
      stripVoiceBleed ("orin".toList)
          (stripVoiceBleed ("orin".toList) ("Orin: Orin: hi".toList)) =
        ("hi".toList) ∧
      stripVoiceBleed ("orin".toList)
          (stripVoiceBleed ("orin".toList) ("Orin: Orin: hi".toList)) ≠
        stripVoiceBleed ("orin".toList) ("Orin: Orin: hi".toList) := by
  refine ⟨by decide, by decide, by decide⟩

/-- Claim C2, amended: the voice-bleed stripper is idempotent on every
input whose stripped form is a fixed point of the five anchored
substitutions, i.e. whenever one pass over `strip(x)` changes nothing
(stacked prefixes, as in the counterexample, are exactly the failing
case). -/
theorem strip_voice_bleed_idem_of_settled (aid x : Str)
    (h : voiceBleedPass (capitalize aid) (stripVoiceBleed aid x) =
      stripVoiceBleed aid x) :
    stripVoiceBleed aid (stripVoiceBleed aid x) = stripVoiceBleed aid x := by
  conv_lhs => rw [stripVoiceBleed, h]
  exact pyStrip_stripVoiceBleed aid x

/-- Claim C2, witness: the amended idempotence theorem applies to agent id
`orin` and the input `"hello there"`. -/
theorem strip_voice_bleed_idem_witness :
    stripVoiceBleed ("orin".toList)
        (stripVoiceBleed ("orin".toList) ("hello there".toList)) =
      stripVoiceBleed ("orin".toList) ("hello there".toList) :=
  strip_voice_bleed_idem_of_settled ("orin".toList) ("hello there".toList)
    (by decide)

/-- An agent as the schedulers see it: only the display name is consulted,
for bare first-name mentions. -/
structure Agent where
  name : Str
deriving DecidableEq

/-- Python's `name.split('-')[0]`. -/
def firstNamePart (s : Str) : Str := s.takeWhile (fun c => decide (c ≠ '-'))

/-- The reserved human participant id of `InteractiveTurnSelector`. -/
def humanId : Str := "human".toList

/-- The `@`-alias tokens that resolve to the human slot
(`HUMAN_MENTIONS` without the `@` sign, as matched by the code). -/
def humanAliases : List Str := ["human".toList, "you".toList, "mat".toList]

/-- `HUMAN_MENTIONS_LOOSE`: bare substrings that loosely mention the
human. -/
def looseHumanTriggers : List Str :=
  ["you".toList, "human".toList, "mat".toList, "your".toList]

/-- Scanner for `re.findall(r'@(\w+)', content)`, by fuel-bounded
structural recursion; each step consumes at least one character, so fuel
equal to the input length is always sufficient. -/
def findAtMentionsGo : ℕ → Str → List Str
  | 0, _ => []
  | _ + 1, [] => []
  | fuel + 1, c :: rest =>
    if c = '@' then
      let run := rest.takeWhile isWordChar
      if run.isEmpty then findAtMentionsGo fuel rest
      else run :: findAtMentionsGo fuel (rest.drop run.length)
    else findAtMentionsGo fuel rest

/-- The regex `re.findall(r'@(\w+)', content)`: every maximal non-empty
run of word characters directly after an `@`, left to right. -/
def findAtMentions (s : Str) : List Str := findAtMentionsGo s.length s

/-- State of `orchestrator.TurnSelector`: the insertion-ordered agent
dict, per-agent turn counts, the last speaker, and the seeded generator
modelled as a stream of draws in `[0, 1)` consumed one at a time. -/
structure TurnSelector where
  agents : List (Str × Agent)
  rng : ℕ → ℚ
  rngIdx : ℕ
  turnCounts : Str → ℕ
  lastSpeaker : Option Str

/-- Fresh `TurnSelector(agents, seed)`: all counts zero, no last
speaker. -/
def TurnSelector.init (agents : List (Str × Agent)) (rng : ℕ → ℚ) :
    TurnSelector :=
  { agents := agents, rng := rng, rngIdx := 0,
    turnCounts := fun _ => 0, lastSpeaker := none }

/-- The roster ids, in dict insertion order. -/
def TurnSelector.agentIds (s : TurnSelector) : List Str :=
  s.agents.map Prod.fst

/-- `TurnSelector._detect_mentions`: case-folded substring tests for each
agent id, else for the bare first part of its display name, in roster
order. -/
def TurnSelector.detectMentions (s : TurnSelector) (content : Str) :
    List Str :=
  let contentLower := lowerStr content
  s.agents.foldl
    (fun acc p =>
      if strContains contentLower (lowerStr p.1) then acc ++ [p.1]
      else if ¬ p.2.name.isEmpty ∧
          strContains contentLower (lowerStr (firstNamePart p.2.name)) then
        acc ++ [p.1]
      else acc)
    []

/-- `TurnSelector._select`: record the chosen speaker. -/
def TurnSelector.applySelect (s : TurnSelector) (aid : Str) :
    Str × TurnSelector :=
  (aid,
    { s with
      turnCounts := fun x => if x = aid then s.turnCounts aid + 1 else s.turnCounts x,
      lastSpeaker := some aid })

/-- Cumulative scan of `_weighted_choice`: the first id whose cumulative
weight reaches `r = draw · total`. The comparison `r ≤ cumulative` is
carried out exactly in ℤ as `draw.num · total ≤ cumulative · draw.den`
(cumulative weights are natural numbers and `draw.den > 0`), which is the
same rational comparison without normalization. -/
def pickByWeight (draw : ℚ) (total : ℕ) : List (Str × ℕ) → ℕ → Option Str
  | [], _ => none
  | (aid, w) :: rest, cum =>
    if draw.num * (total : ℤ) ≤ ((cum + w : ℕ) : ℤ) * (draw.den : ℤ) then
      some aid
    else pickByWeight draw total rest (cum + w)

/-- `TurnSelector._weighted_choice`, consuming one draw from the stream.
Weights are `max(counts) + 1 − count + 1`, never negative for roster
members, so `ℕ` subtraction is exact here. The empty-eligible branch
(`rng.choice`) is unreachable from `select_next` and modelled as a dummy
without consuming a draw. -/
def TurnSelector.weightedChoice (s : TurnSelector) (eligible : List Str) :
    Str × TurnSelector :=
  match eligible with
  | [] => ([], s)
  | _ :: _ =>
    let maxTurns := (s.agentIds.map s.turnCounts).foldr max 0 + 1
    let weights := eligible.map (fun aid => maxTurns - s.turnCounts aid + 1)
    let total : ℕ := weights.foldr (· + ·) 0
    let chosen := (pickByWeight (s.rng s.rngIdx) total
      (eligible.zip weights) 0).getD (eligible.getLastD [])
    (chosen, { s with rngIdx := s.rngIdx + 1 })

/-- The eligible list computed by `TurnSelector.select_next`: everyone but
the last speaker, falling back to the whole roster when that is empty. -/
def TurnSelector.eligibleList (s : TurnSelector) : List Str :=
  let e0 := s.agentIds.filter (fun aid => decide (s.lastSpeaker ≠ some aid))
  if e0.isEmpty then s.agentIds else e0

/-- The mention branch of `TurnSelector.select_next`: the first detected
mention that is eligible, if any (Python truthiness: empty `last_content`
behaves as absent). -/
def TurnSelector.mentionPick (s : TurnSelector) (lastContent : Option Str) :
    Option Str :=
  match lastContent with
  | some c =>
    if c.isEmpty then none
    else ((s.detectMentions c).filter
      (fun aid => decide (aid ∈ s.eligibleList))).head?
  | none => none

/-- Body of `TurnSelector.select_next` after the force check: cooldown by
last speaker, mention primacy, then weighted least-recently-spoken. -/
def TurnSelector.selectNextBody (s : TurnSelector) (lastContent : Option Str) :
    Str × TurnSelector :=
  match s.mentionPick lastContent with
  | some aid => s.applySelect aid
  | none =>
    let p := s.weightedChoice s.eligibleList
    p.2.applySelect p.1

/-- `TurnSelector.select_next(last_content, force_agent)`. Python
truthiness: an empty forced id behaves as absent; `force_agent` must be a
dict key to be honored, otherwise the call falls through to the normal
rules. -/
def TurnSelector.selectNext (s : TurnSelector) (lastContent : Option Str)
    (forceAgent : Option Str) : Str × TurnSelector :=
  match forceAgent with
  | some f =>
    if ¬ f.isEmpty ∧ f ∈ s.agentIds then s.applySelect f
    else s.selectNextBody lastContent
  | none => s.selectNextBody lastContent

/-- The last `n` elements of a list (Python `lst[-n:]` for `n > 0`). -/
def lastN (n : ℕ) (l : List Str) : List Str := l.drop (l.length - n)

/-- State of `InteractiveTurnSelector`: adds the human slot, a cooldown
ring of recent speakers, and the same stream-modelled generator. -/
structure InteractiveTurnSelector where
  agents : List (Str × Agent)
  includeHuman : Bool
  rng : ℕ → ℚ
  rngIdx : ℕ
  cooldown : ℕ
  agentIds : List Str
  turnCounts : Str → ℕ
  recentSpeakers : List Str

/-- Fresh `InteractiveTurnSelector(agents, seed, include_human, cooldown)`
(defaults `include_human=True`, `cooldown=2`). -/
def InteractiveTurnSelector.init (agents : List (Str × Agent)) (rng : ℕ → ℚ)
    (includeHuman : Bool := true) (cooldown : ℕ := 2) :
    InteractiveTurnSelector :=
  { agents := agents, includeHuman := includeHuman, rng := rng, rngIdx := 0,
    cooldown := cooldown,
    agentIds := agents.map Prod.fst ++ (if includeHuman then [humanId] else []),
    turnCounts := fun _ => 0, recentSpeakers := [] }

/-- One step of the explicit `@mention` loop of
`InteractiveTurnSelector._detect_mentions`: a token may add the human slot
(via an alias) and then the first agent id it equals, without
duplicates. -/
def addExplicitMention (agents : List (Str × Agent)) (includeHuman : Bool)
    (acc : List Str) (m : Str) : List Str :=
  let acc1 :=
    if includeHuman ∧ m ∈ humanAliases ∧ humanId ∉ acc then acc ++ [humanId]
    else acc
  match agents.find? (fun p => decide (m = lowerStr p.1)) with
  | some p => if p.1 ∈ acc1 then acc1 else acc1 ++ [p.1]
  | none => acc1

/-- The explicit `@`-mention list of a content string: the fold of
`addExplicitMention` over the `@(\w+)` tokens of the lower-cased
content. -/
def InteractiveTurnSelector.explicitMentions (s : InteractiveTurnSelector)
    (content : Str) : List Str :=
  (findAtMentions (lowerStr content)).foldl
    (addExplicitMention s.agents s.includeHuman) []

/-- `InteractiveTurnSelector._detect_mentions`: explicit `@` mentions
first, then loose human and loose agent mentions. -/
def InteractiveTurnSelector.detectMentions (s : InteractiveTurnSelector)
    (content : Str) : List Str :=
  let contentLower := lowerStr content
  let explicit := s.explicitMentions content
  let looseHuman :=
    if s.includeHuman ∧ humanId ∉ explicit ∧
        looseHumanTriggers.any (fun t => strContains contentLower t) then
      [humanId]
    else []
  let loose := s.agents.foldl
    (fun acc p =>
      if p.1 ∈ explicit then acc
      else if strContains contentLower (lowerStr p.1) then
        (if p.1 ∈ acc then acc else acc ++ [p.1])
      else if ¬ p.2.name.isEmpty ∧
          strContains contentLower (lowerStr (firstNamePart p.2.name)) then
        (if p.1 ∈ acc then acc else acc ++ [p.1])
      else acc)
    looseHuman
  explicit ++ loose

/-- `InteractiveTurnSelector._select`: record the speaker in the counts
and the cooldown ring. -/
def InteractiveTurnSelector.applySelect (s : InteractiveTurnSelector)
    (aid : Str) : Str × InteractiveTurnSelector :=
  (aid,
    { s with
      turnCounts := fun x => if x = aid then s.turnCounts aid + 1 else s.turnCounts x,
      recentSpeakers := s.recentSpeakers ++ [aid] })

/-- The cooldown set: the last `cooldown` recent speakers, empty when
`cooldown = 0`. -/
def InteractiveTurnSelector.inCooldown (s : InteractiveTurnSelector) :
    List Str :=
  if s.cooldown > 0 then lastN s.cooldown s.recentSpeakers else []

/-- `InteractiveTurnSelector._weighted_choice` (same algorithm as the
non-interactive selector, over this selector's counts and roster). -/
def InteractiveTurnSelector.weightedChoice (s : InteractiveTurnSelector)
    (eligible : List Str) : Str × InteractiveTurnSelector :=
  match eligible with
  | [] => ([], s)
  | _ :: _ =>
    let maxTurns := (s.agentIds.map s.turnCounts).foldr max 0 + 1
    let weights := eligible.map (fun aid => maxTurns - s.turnCounts aid + 1)
    let total : ℕ := weights.foldr (· + ·) 0
    let chosen := (pickByWeight (s.rng s.rngIdx) total
      (eligible.zip weights) 0).getD (eligible.getLastD [])
    (chosen, { s with rngIdx := s.rngIdx + 1 })

/-- The eligible list of `InteractiveTurnSelector.select_next`: roster
minus the cooldown set, falling back to the whole roster when that leaves
nobody (small ensembles). -/
def InteractiveTurnSelector.eligibleList (s : InteractiveTurnSelector) :
    List Str :=
  let cd := s.inCooldown
  let e0 := s.agentIds.filter (fun aid => decide (aid ∉ cd))
  if e0.isEmpty then s.agentIds else e0

/-- The mention branch of `InteractiveTurnSelector.select_next`: the
first detected mention that is eligible, if any. -/
def InteractiveTurnSelector.mentionPick (s : InteractiveTurnSelector)
    (lastContent : Option Str) : Option Str :=
  match lastContent with
  | some c =>
    if c.isEmpty then none
    else ((s.detectMentions c).filter
      (fun aid => decide (aid ∈ s.eligibleList))).head?
  | none => none

/-- Body of `InteractiveTurnSelector.select_next` after the force check:
cooldown, mention primacy, weighted choice. -/
def InteractiveTurnSelector.selectNextBody (s : InteractiveTurnSelector)
    (lastContent : Option Str) : Str × InteractiveTurnSelector :=
  match s.mentionPick lastContent with
  | some aid => s.applySelect aid
  | none =>
    let p := s.weightedChoice s.eligibleList
    p.2.applySelect p.1

/-- `InteractiveTurnSelector.select_next(last_content, force_agent)`; the
force is honored when it names a roster member (including the human). -/
def InteractiveTurnSelector.selectNext (s : InteractiveTurnSelector)
    (lastContent : Option Str) (forceAgent : Option Str) :
    Str × InteractiveTurnSelector :=
  match forceAgent with
  | some f =>
    if ¬ f.isEmpty ∧ f ∈ s.agentIds then s.applySelect f
    else s.selectNextBody lastContent
  | none => s.selectNextBody lastContent

theorem getLastD_mem : ∀ (l : List Str) (d : Str), l ≠ [] → l.getLastD d ∈ l := by
  intro l
  induction l with
  | nil => simp
  | cons a t ih =>
    intro d _
    cases t with
    | nil => simp [List.getLastD]
    | cons b u =>
      rw [List.getLastD_cons]
      exact List.mem_cons_of_mem a (ih a (by simp))

theorem pickByWeight_mem (draw : ℚ) (total : ℕ) :
    ∀ (l : List (Str × ℕ)) (cum : ℕ) (aid : Str),
      pickByWeight draw total l cum = some aid → aid ∈ l.map Prod.fst := by
  intro l
  induction l with
  | nil => intro cum aid h; simp [pickByWeight] at h
  | cons p t ih =>
    intro cum aid h
    rw [pickByWeight] at h
    by_cases hr : draw.num * (total : ℤ) ≤
        ((cum + p.2 : ℕ) : ℤ) * (draw.den : ℤ)
    · simp only [hr, if_pos] at h
      cases h
      simp
    · simp only [hr, if_neg, not_false_iff] at h
      exact List.mem_cons_of_mem _ (ih _ _ h)

theorem pick_getD_mem (draw : ℚ) (total cum : ℕ) (eligible : List Str)
    (weights : List ℕ) (hlen : eligible.length ≤ weights.length)
    (hne : eligible ≠ []) :
    (pickByWeight draw total (eligible.zip weights) cum).getD
      (eligible.getLastD []) ∈ eligible := by
  cases hpick : pickByWeight draw total (eligible.zip weights) cum with
  | none =>
    rw [Option.getD_none]
    exact getLastD_mem eligible [] hne
  | some aid =>
    rw [Option.getD_some]
    have hm := pickByWeight_mem draw total (eligible.zip weights) cum aid hpick
    rwa [List.map_fst_zip _ _ hlen] at hm

theorem TurnSelector.weightedChoice_mem (s : TurnSelector)
    (eligible : List Str) (hne : eligible ≠ []) :
    (s.weightedChoice eligible).1 ∈ eligible := by
  cases eligible with
  | nil => exact absurd rfl hne
  | cons e es => exact pick_getD_mem _ _ _ (e :: es) _ (by simp) (by simp)

theorem InteractiveTurnSelector.weightedChoice_mem_interactive
    (s : InteractiveTurnSelector) (eligible : List Str) (hne : eligible ≠ []) :
    (s.weightedChoice eligible).1 ∈ eligible := by
  cases eligible with
  | nil => exact absurd rfl hne
  | cons e es => exact pick_getD_mem _ _ _ (e :: es) _ (by simp) (by simp)

theorem TurnSelector.eligibleList_ne_nil (s : TurnSelector)
    (h : s.agentIds ≠ []) : s.eligibleList ≠ [] := by
  simp only [TurnSelector.eligibleList]
  split
  · exact h
  · next he => simpa [List.isEmpty_iff] using he

theorem InteractiveTurnSelector.eligibleList_ne_nil_interactive
    (s : InteractiveTurnSelector) (h : s.agentIds ≠ []) :
    s.eligibleList ≠ [] := by
  simp only [InteractiveTurnSelector.eligibleList]
  split
  · exact h
  · next he => simpa [List.isEmpty_iff] using he

theorem TurnSelector.mentionPick_mem (s : TurnSelector) (lc : Option Str)
    (aid : Str) (h : s.mentionPick lc = some aid) : aid ∈ s.eligibleList := by
  rcases lc with _ | c
  · simp [TurnSelector.mentionPick] at h
  · rw [TurnSelector.mentionPick] at h
    by_cases hc : c.isEmpty
    · simp [hc] at h
    · simp only [hc, if_neg, Bool.not_eq_true] at h
      have hmem := List.mem_of_mem_head? (h ▸ Option.mem_def.2 rfl)
      have := (List.mem_filter.1 hmem).2
      exact of_decide_eq_true this

theorem InteractiveTurnSelector.mentionPick_mem_interactive (s : InteractiveTurnSelector)
    (lc : Option Str) (aid : Str) (h : s.mentionPick lc = some aid) :
    aid ∈ s.eligibleList := by
  rcases lc with _ | c
  · simp [InteractiveTurnSelector.mentionPick] at h
  · rw [InteractiveTurnSelector.mentionPick] at h
    by_cases hc : c.isEmpty
    · simp [hc] at h
    · simp only [hc, if_neg, Bool.not_eq_true] at h
      have hmem := List.mem_of_mem_head? (h ▸ Option.mem_def.2 rfl)
      have := (List.mem_filter.1 hmem).2
      exact of_decide_eq_true this

theorem TurnSelector.selectNextBody_fst_mem (s : TurnSelector)
    (lc : Option Str) (h : s.agentIds ≠ []) :
    (s.selectNextBody lc).1 ∈ s.eligibleList := by
  rw [TurnSelector.selectNextBody]
  cases hm : s.mentionPick lc with
  | some aid => exact s.mentionPick_mem lc aid hm
  | none => exact s.weightedChoice_mem _ (s.eligibleList_ne_nil h)

theorem InteractiveTurnSelector.selectNextBody_fst_mem_interactive
    (s : InteractiveTurnSelector) (lc : Option Str) (h : s.agentIds ≠ []) :
    (s.selectNextBody lc).1 ∈ s.eligibleList := by
  rw [InteractiveTurnSelector.selectNextBody]
  cases hm : s.mentionPick lc with
  | some aid => exact s.mentionPick_mem_interactive lc aid hm
  | none =>
    exact s.weightedChoice_mem_interactive _
      (s.eligibleList_ne_nil_interactive h)

theorem TurnSelector.selectNextBody_lastSpeaker (s : TurnSelector)
    (lc : Option Str) :
    (s.selectNextBody lc).2.lastSpeaker = some (s.selectNextBody lc).1 := by
  rw [TurnSelector.selectNextBody]
  cases s.mentionPick lc <;> rfl

theorem TurnSelector.weightedChoice_agents (s : TurnSelector)
    (el : List Str) : (s.weightedChoice el).2.agents = s.agents := by
  cases el <;> rfl

theorem InteractiveTurnSelector.weightedChoice_frame
    (s : InteractiveTurnSelector) (el : List Str) :
    (s.weightedChoice el).2.recentSpeakers = s.recentSpeakers ∧
      (s.weightedChoice el).2.agentIds = s.agentIds ∧
      (s.weightedChoice el).2.cooldown = s.cooldown := by
  cases el <;> exact ⟨rfl, rfl, rfl⟩

theorem TurnSelector.selectNextBody_agents (s : TurnSelector)
    (lc : Option Str) : (s.selectNextBody lc).2.agents = s.agents := by
  rw [TurnSelector.selectNextBody]
  cases s.mentionPick lc with
  | some aid => rfl
  | none =>
    show ((s.weightedChoice s.eligibleList).2.applySelect
      (s.weightedChoice s.eligibleList).1).2.agents = s.agents
    show (s.weightedChoice s.eligibleList).2.agents = s.agents
    exact s.weightedChoice_agents _

theorem InteractiveTurnSelector.selectNextBody_recent
    (s : InteractiveTurnSelector) (lc : Option Str) :
    (s.selectNextBody lc).2.recentSpeakers =
      s.recentSpeakers ++ [(s.selectNextBody lc).1] := by
  rw [InteractiveTurnSelector.selectNextBody]
  cases s.mentionPick lc with
  | some aid => rfl
  | none =>
    show (s.weightedChoice s.eligibleList).2.recentSpeakers ++
        [(s.weightedChoice s.eligibleList).1] =
      s.recentSpeakers ++ [(s.weightedChoice s.eligibleList).1]
    rw [(s.weightedChoice_frame s.eligibleList).1]

theorem InteractiveTurnSelector.selectNextBody_frame
    (s : InteractiveTurnSelector) (lc : Option Str) :
    (s.selectNextBody lc).2.agentIds = s.agentIds ∧
      (s.selectNextBody lc).2.cooldown = s.cooldown := by
  rw [InteractiveTurnSelector.selectNextBody]
  cases s.mentionPick lc with
  | some aid => exact ⟨rfl, rfl⟩
  | none =>
    constructor
    · show (s.weightedChoice s.eligibleList).2.agentIds = s.agentIds
      exact (s.weightedChoice_frame s.eligibleList).2.1
    · show (s.weightedChoice s.eligibleList).2.cooldown = s.cooldown
      exact (s.weightedChoice_frame s.eligibleList).2.2

theorem TurnSelector.not_mem_eligibleList (s : TurnSelector) (x b : Str)
    (hlast : s.lastSpeaker = some x) (hb : b ∈ s.agentIds) (hbx : b ≠ x) :
    x ∉ s.eligibleList := by
  have hbe : b ∈ s.agentIds.filter
      (fun aid => decide (s.lastSpeaker ≠ some aid)) := by
    refine List.mem_filter.2 ⟨hb, decide_eq_true ?_⟩
    rw [hlast]
    intro hcontra
    exact hbx (Option.some_injective _ hcontra).symm
  have hne : ¬ (s.agentIds.filter
      (fun aid => decide (s.lastSpeaker ≠ some aid))).isEmpty := by
    rw [List.isEmpty_iff]
    intro hnil
    rw [hnil] at hbe
    exact List.not_mem_nil b hbe
  unfold TurnSelector.eligibleList
  simp only [hne, if_neg, Bool.not_eq_true]
  intro hx
  have := of_decide_eq_true (List.mem_filter.1 hx).2
  exact this hlast

theorem mem_lastN_append (n : ℕ) (hn : 1 ≤ n) (l : List Str) (x : Str) :
    x ∈ lastN n (l ++ [x]) := by
  unfold lastN
  have hlen : (l ++ [x]).length - n ≤ l.length := by
    simp only [List.length_append, List.length_singleton]
    omega
  rw [List.drop_append_of_le_length hlen]
  exact List.mem_append_right _ (List.mem_singleton.2 rfl)

theorem InteractiveTurnSelector.not_mem_eligibleList_interactive
    (s : InteractiveTurnSelector) (x : Str) (hx : x ∈ s.inCooldown)
    (he0 : s.agentIds.filter (fun aid => decide (aid ∉ s.inCooldown)) ≠ []) :
    x ∉ s.eligibleList := by
  have hne : ¬ (s.agentIds.filter
      (fun aid => decide (aid ∉ s.inCooldown))).isEmpty := by
    rw [List.isEmpty_iff]
    exact he0
  unfold InteractiveTurnSelector.eligibleList
  simp only [hne, if_neg, Bool.not_eq_true]
  intro hmem
  exact (of_decide_eq_true (List.mem_filter.1 hmem).2) hx

/-- Claim C1, amended: with no forced speaker, `TurnSelector` never
returns the same agent on two consecutive calls whenever the roster holds
two distinct ids; `InteractiveTurnSelector` never does so whenever its
cooldown is at least 1 and the cooldown exclusion leaves at least one
eligible candidate (without the whole-roster fallback). With cooldown 0,
or when the cooldown swallows the whole roster (e.g. a roster of two
under the default cooldown 2), a repeat is possible, as the
counterexample shows. -/
theorem scheduler_no_repeat_amended :
    (∀ (s : TurnSelector) (lc0 lc1 : Option Str) (a b : Str),
      a ∈ s.agentIds → b ∈ s.agentIds → a ≠ b →
      ((s.selectNext lc0 none).2.selectNext lc1 none).1 ≠
        (s.selectNext lc0 none).1) ∧
    (∀ (s : InteractiveTurnSelector) (lc0 lc1 : Option Str),
      1 ≤ s.cooldown →
      (s.selectNext lc0 none).2.agentIds.filter
        (fun aid => decide (aid ∉ (s.selectNext lc0 none).2.inCooldown)) ≠ [] →
      ((s.selectNext lc0 none).2.selectNext lc1 none).1 ≠
        (s.selectNext lc0 none).1) := by
  constructor
  · intro s lc0 lc1 a b ha hb hab
    show ((s.selectNextBody lc0).2.selectNextBody lc1).1 ≠
      (s.selectNextBody lc0).1
    set x := (s.selectNextBody lc0).1 with hx
    set s1 := (s.selectNextBody lc0).2 with hs1
    have hlast : s1.lastSpeaker = some x := s.selectNextBody_lastSpeaker lc0
    have hagents : s1.agentIds = s.agentIds := by
      show (s.selectNextBody lc0).2.agents.map Prod.fst = _
      rw [s.selectNextBody_agents lc0]
      rfl
    obtain ⟨c, hc, hcx⟩ : ∃ c, c ∈ s1.agentIds ∧ c ≠ x := by
      by_cases hax : a = x
      · exact ⟨b, hagents ▸ hb, fun hbx => hab (hax.trans hbx.symm)⟩
      · exact ⟨a, hagents ▸ ha, hax⟩
    have hxe : x ∉ s1.eligibleList :=
      s1.not_mem_eligibleList x c hlast hc hcx
    have hmem : (s1.selectNextBody lc1).1 ∈ s1.eligibleList :=
      s1.selectNextBody_fst_mem lc1 (by
        intro hnil
        rw [hnil] at hc
        exact List.not_mem_nil c hc)
    intro heq
    rw [heq] at hmem
    exact hxe hmem
  · intro s lc0 lc1 hcd he0
    show ((s.selectNextBody lc0).2.selectNextBody lc1).1 ≠
      (s.selectNextBody lc0).1
    set x := (s.selectNextBody lc0).1 with hx
    set s1 := (s.selectNextBody lc0).2 with hs1
    have hrec : s1.recentSpeakers = s.recentSpeakers ++ [x] :=
      s.selectNextBody_recent lc0
    have hfr := s.selectNextBody_frame lc0
    have hcool : s1.cooldown = s.cooldown := hfr.2
    have hxcd : x ∈ s1.inCooldown := by
      unfold InteractiveTurnSelector.inCooldown
      rw [hcool, hrec]
      simp only [show s.cooldown > 0 from hcd, if_pos]
      exact mem_lastN_append s.cooldown hcd s.recentSpeakers x
    have he0' : s1.agentIds.filter
        (fun aid => decide (aid ∉ s1.inCooldown)) ≠ [] := he0
    have hxe : x ∉ s1.eligibleList :=
      s1.not_mem_eligibleList_interactive x hxcd he0'
    have hids : s1.agentIds ≠ [] := by
      intro hnil
      rw [hnil] at he0'
      exact he0' rfl
    have hmem : (s1.selectNextBody lc1).1 ∈ s1.eligibleList :=
      s1.selectNextBody_fst_mem_interactive lc1 hids
    intro heq
    rw [heq] at hmem
    exact hxe hmem

/-- First scheduler state of the no-repeat counterexample: one AI agent
plus the human, default cooldown 2, a fixed draw stream. -/
def noRepeatSel : InteractiveTurnSelector :=
  InteractiveTurnSelector.init
    [("orin".toList, ⟨"systems-analyst-orin".toList⟩)] (fun _ => 0)

/-- State after the first non-forced call of the counterexample run. -/
def noRepeatRun1 : Str × InteractiveTurnSelector :=
  noRepeatSel.selectNext (some ("@human".toList)) none

/-- State after the second non-forced call of the counterexample run. -/
def noRepeatRun2 : Str × InteractiveTurnSelector :=
  noRepeatRun1.2.selectNext (some ("@human".toList)) none

/-- State after the third non-forced call of the counterexample run. -/
def noRepeatRun3 : Str × InteractiveTurnSelector :=
  noRepeatRun2.2.selectNext (some ("@orin".toList)) none

/-- Claim C1, counterexample: an `InteractiveTurnSelector` run over a
roster of 2 (one agent plus the human) with the default cooldown 2 and no
forced speaker selects `orin` on two consecutive calls: the cooldown
swallows the whole roster, the fallback restores every candidate
(2 eligible), and the `@orin` mention then re-selects the last
speaker. -/
theorem scheduler_no_repeat_counterexample :
    noRepeatRun2.1 = "orin".toList ∧ noRepeatRun3.1 = "orin".toList ∧
      noRepeatRun2.2.eligibleList.length = 2 ∧
      noRepeatRun2.2.agentIds.length = 2 := by
  refine ⟨by decide, by decide, by decide, by decide⟩

/-- Concrete two-agent `TurnSelector` used by the no-repeat witness. -/
def noRepeatWitSelA : TurnSelector :=
  TurnSelector.init
    [("luma".toList, ⟨"luma-child-voice".toList⟩),
      ("orin".toList, ⟨"systems-analyst-orin".toList⟩)] (fun _ => 0)

/-- Concrete `InteractiveTurnSelector` with cooldown 1 used by the
no-repeat witness. -/
def noRepeatWitSelB : InteractiveTurnSelector :=
  InteractiveTurnSelector.init
    [("luma".toList, ⟨"luma-child-voice".toList⟩),
      ("orin".toList, ⟨"systems-analyst-orin".toList⟩)] (fun _ => 0) true 1

/-- Claim C1, witness: the amended no-repeat theorem applies to a fresh
two-agent `TurnSelector` and to a fresh `InteractiveTurnSelector` over
two agents plus the human with cooldown 1, in both cases under the
constant-zero draw stream. -/
theorem scheduler_no_repeat_witness :
    ((noRepeatWitSelA.selectNext none none).2.selectNext none none).1 ≠
        (noRepeatWitSelA.selectNext none none).1 ∧
      ((noRepeatWitSelB.selectNext none none).2.selectNext none none).1 ≠
        (noRepeatWitSelB.selectNext none none).1 :=
  ⟨scheduler_no_repeat_amended.1 noRepeatWitSelA none none
      ("luma".toList) ("orin".toList) (by decide) (by decide) (by decide),
    scheduler_no_repeat_amended.2 noRepeatWitSelB none none
      (by decide) (by decide)⟩

/-- The scheduler state used by the mention-primacy counterexample and
witness: two AI agents plus the human, fresh state, fixed draw stream. -/
def mentionSel : InteractiveTurnSelector :=
  InteractiveTurnSelector.init
    [("luma".toList, ⟨"luma-child-voice".toList⟩),
      ("orin".toList, ⟨"systems-analyst-orin".toList⟩)] (fun _ => 0)

/-- Claim C5, counterexample: with `last_content` containing the explicit
mention `@orin` and `orin` eligible, `select_next` without force returns
`luma`, not `orin`, because the earlier `@luma` mention wins. -/
theorem mention_primacy_counterexample :
    "orin".toList ∈
        mentionSel.explicitMentions ("@luma @orin what do you think?".toList) ∧
      "orin".toList ∈ mentionSel.eligibleList ∧
      (mentionSel.selectNext
          (some ("@luma @orin what do you think?".toList)) none).1 ≠
        "orin".toList := by
  refine ⟨by decide, by decide, by decide⟩

/-- Claim C5, amended: if the explicit `@`-mentions of `last_content`
resolve to exactly one roster member `X` and `X` is in the eligible set,
then `select_next` without a forced speaker returns `X`. (When several
eligible members are mentioned, the first detected one wins, as the
counterexample shows.) -/
theorem mention_primacy_amended (s : InteractiveTurnSelector) (c x : Str)
    (hc : ¬ c.isEmpty = true) (hx : s.explicitMentions c = [x])
    (he : x ∈ s.eligibleList) :
    (s.selectNext (some c) none).1 = x := by
  show (s.selectNextBody (some c)).1 = x
  have hpick : s.mentionPick (some c) = some x := by
    rw [InteractiveTurnSelector.mentionPick]
    simp only [hc, if_neg, Bool.not_eq_true]
    rw [InteractiveTurnSelector.detectMentions]
    simp only [hx]
    rw [List.filter_append]
    rw [show List.filter (fun aid => decide (aid ∈ s.eligibleList)) [x] = [x] by
      simp [List.filter_cons, he]]
    simp
  rw [InteractiveTurnSelector.selectNextBody, hpick]
  rfl

/-- Claim C5, witness: the amended mention-primacy theorem applies to the
fresh two-agent-plus-human selector with `last_content` `"@orin hello"`
and `X = orin`. -/
theorem mention_primacy_witness :
    (mentionSel.selectNext (some ("@orin hello".toList)) none).1 =
      "orin".toList :=
  mention_primacy_amended mentionSel ("@orin hello".toList) ("orin".toList)
    (by decide) (by decide) (by decide)

/-- One dialogue turn as recorded by `session_logger.TurnRecord`
(wall-clock timestamps are not modelled). -/
structure TurnRecord where
  turnNumber : ℕ
  agentId : Str
  agentName : Str
  content : Str
  model : Str
  temperature : ℚ
  latencyMs : ℚ
  promptTokens : Option ℕ
  completionTokens : Option ℕ
  embedding : Option (List ℚ)

/-- `session_logger.SessionRecord` (identification and aggregate fields;
timestamps and config paths are not modelled). -/
structure SessionRecord where
  sessionId : Str
  mode : Str
  provocationText : Str
  seed : ℤ
  turns : List TurnRecord
  totalLatencyMs : ℚ
  totalTokens : ℕ
  agentTurnCounts : Str → ℕ
  ended : Bool

/-- `session_logger.SessionLogger` state: its session id, the inline
embedding flag, the active session, and the embeddings held back for
separate storage. -/
structure SessionLoggerS where
  sessionId : Str
  embedInline : Bool
  session : Option SessionRecord
  pendingEmbeddings : List (List ℚ)

/-- A fresh `SessionLogger(output_dir, session_id, embed_inline)`. -/
def SessionLoggerS.init (sid : Str) (embedInline : Bool) : SessionLoggerS :=
  ⟨sid, embedInline, none, []⟩

/-- `SessionLogger.start_session`: initialize the session record. -/
def SessionLoggerS.startSession (lg : SessionLoggerS) (mode provocation : Str)
    (seed : ℤ) : SessionLoggerS :=
  { lg with
    session := some
      { sessionId := lg.sessionId, mode := mode,
        provocationText := provocation, seed := seed, turns := [],
        totalLatencyMs := 0, totalTokens := 0,
        agentTurnCounts := fun _ => 0, ended := false },
    pendingEmbeddings := [] }

/-- A primitive filesystem operation, for checking write atomicity. -/
inductive FsOp where
  | openTrunc (path : Str)
  | write (path : Str) (chunk : Str)
  | close (path : Str)
  | rename (src dst : Str)
deriving DecidableEq

/-- Is this operation a rename? -/
def FsOp.isRename : FsOp → Bool
  | .rename _ _ => true
  | _ => false

/-- A filesystem: each existing path holds the list of chunks written to
it since it was last truncated. -/
def Fs := Str → Option (List Str)

/-- Small-step filesystem semantics. -/
def applyFsOp (fs : Fs) : FsOp → Fs
  | .openTrunc p => fun q => if q = p then some [] else fs q
  | .write p c => fun q => if q = p then some ((fs p).getD [] ++ [c]) else fs q
  | .close _ => fs
  | .rename src dst => fun q =>
    if q = dst then fs src else if q = src then none else fs q

/-- Run a sequence of filesystem operations. -/
def runFsOps (fs : Fs) (ops : List FsOp) : Fs := ops.foldl applyFsOp fs

/-- The file name `session_<id><suffix>.json` used by `_save_json`. -/
def sessionFileName (sid suffix : Str) : Str :=
  "session_".toList ++ sid ++ suffix ++ ".json".toList

/-- The operation trace of `SessionLogger._save_json`: open the
destination path itself for writing (truncating it), stream the JSON
serialization into it, close. The serialized text is abstracted as a list
of chunks. -/
def saveJsonOps (sid suffix : Str) (chunks : List Str) : List FsOp :=
  FsOp.openTrunc (sessionFileName sid suffix) ::
    (chunks.map (FsOp.write (sessionFileName sid suffix)) ++
      [FsOp.close (sessionFileName sid suffix)])

/-- The operation trace of `SessionLogger._save_checkpoint`: `_save_json`
with the `"_checkpoint"` suffix. -/
def saveCheckpointOps (sid : Str) (chunks : List Str) : List FsOp :=
  saveJsonOps sid ("_checkpoint".toList) chunks

/-- The arguments of one `log_turn` call. -/
structure TurnInput where
  agentId : Str
  agentName : Str
  content : Str
  model : Str
  temperature : ℚ
  latencyMs : ℚ
  embedding : Option (List ℚ)
  promptTokens : Option ℕ
  completionTokens : Option ℕ
  checkpoint : Bool

/-- `SessionLogger.log_turn`: assign `turn_number = len(turns) + 1`,
append the record, update the aggregates (tokens only when both counts
are truthy, i.e. present and non-zero), and, when `checkpoint`, emit the
filesystem trace of `_save_checkpoint`. `encode` abstracts the JSON
serializer. Raises `RuntimeError` when no session was started. -/
def SessionLoggerS.logTurn (encode : SessionRecord → List Str)
    (lg : SessionLoggerS) (inp : TurnInput) :
    Except Str (TurnRecord × SessionLoggerS × List FsOp) :=
  match lg.session with
  | none => .error ("Session not started. Call start_session() first.".toList)
  | some sess =>
    let turnNumber := sess.turns.length + 1
    let embeddingList :=
      if lg.embedInline then inp.embedding else none
    let pending :=
      match inp.embedding with
      | some e => if lg.embedInline then lg.pendingEmbeddings
          else lg.pendingEmbeddings ++ [e]
      | none => lg.pendingEmbeddings
    let turn : TurnRecord :=
      { turnNumber := turnNumber, agentId := inp.agentId,
        agentName := inp.agentName, content := inp.content,
        model := inp.model, temperature := inp.temperature,
        latencyMs := inp.latencyMs, promptTokens := inp.promptTokens,
        completionTokens := inp.completionTokens,
        embedding := embeddingList }
    let tokenAdd :=
      match inp.promptTokens, inp.completionTokens with
      | some p, some q => if p ≠ 0 ∧ q ≠ 0 then p + q else 0
      | _, _ => 0
    let sess' : SessionRecord :=
      { sess with
        turns := sess.turns ++ [turn],
        totalLatencyMs := sess.totalLatencyMs + inp.latencyMs,
        totalTokens := sess.totalTokens + tokenAdd,
        agentTurnCounts := fun a =>
          if a = inp.agentId then sess.agentTurnCounts inp.agentId + 1
          else sess.agentTurnCounts a }
    let lg' : SessionLoggerS :=
      { lg with session := some sess', pendingEmbeddings := pending }
    let ops :=
      if inp.checkpoint then
        saveCheckpointOps lg.sessionId (encode sess')
      else []
    .ok (turn, lg', ops)

/-- Run a list of `log_turn` calls, threading the logger state (a failed
call raises before any mutation, leaving the state unchanged). -/
def SessionLoggerS.logTurns (encode : SessionRecord → List Str) :
    SessionLoggerS → List TurnInput → SessionLoggerS
  | lg, [] => lg
  | lg, inp :: rest =>
    match lg.logTurn encode inp with
    | .ok (_, st', _) => SessionLoggerS.logTurns encode st' rest
    | .error _ => SessionLoggerS.logTurns encode lg rest

theorem runFsOps_writes (p : Str) (chunks : List Str) :
    ∀ (fs : Fs) (acc : List Str), fs p = some acc →
      runFsOps fs (chunks.map (FsOp.write p)) p = some (acc ++ chunks) := by
  induction chunks with
  | nil =>
    intro fs acc h
    simpa [runFsOps] using h
  | cons c t ih =>
    intro fs acc h
    have hstep : (applyFsOp fs (FsOp.write p c)) p = some (acc ++ [c]) := by
      simp [applyFsOp, h]
    have := ih (applyFsOp fs (FsOp.write p c)) (acc ++ [c]) hstep
    simpa [runFsOps, List.foldl_cons, List.append_assoc] using this

theorem runFsOps_saveJson (fs : Fs) (sid suffix : Str)
    (chunks : List Str) :
    runFsOps fs (saveJsonOps sid suffix chunks)
      (sessionFileName sid suffix) = some chunks := by
  set p := sessionFileName sid suffix with hp
  have hopen : (applyFsOp fs (FsOp.openTrunc p)) p = some [] := by
    simp [applyFsOp]
  have hwrites := runFsOps_writes p chunks (applyFsOp fs (FsOp.openTrunc p))
    [] hopen
  simp only [saveJsonOps, runFsOps, List.foldl_cons, List.foldl_append,
    ← hp] at hwrites ⊢
  simpa [runFsOps, applyFsOp] using hwrites

theorem runFsOps_openTrunc_only (fs : Fs) (p : Str) :
    runFsOps fs [FsOp.openTrunc p] p = some [] := by
  simp [runFsOps, applyFsOp]

theorem saveJsonOps_no_rename (sid suffix : Str) (chunks : List Str) :
    (saveJsonOps sid suffix chunks).filter FsOp.isRename = [] := by
  have hmap : ∀ (l : List Str),
      (l.map (FsOp.write (sessionFileName sid suffix))).filter
        FsOp.isRename = [] := by
    intro l
    induction l with
    | nil => rfl
    | cons c t ih => simp [List.filter_cons, FsOp.isRename, ih]
  simp [saveJsonOps, List.filter_cons, List.filter_append, FsOp.isRename,
    hmap]

/-- Concrete filesystem for the checkpoint counterexample: the checkpoint
path holds one old chunk, everything else is absent. -/
def cxFs : Fs := fun q =>
  if q = sessionFileName ("20250101".toList) ("_checkpoint".toList) then
    some ["old-checkpoint".toList]
  else none

/-- The checkpoint trace of the counterexample: two JSON chunks. -/
def cxOps : List FsOp :=
  saveCheckpointOps ("20250101".toList)
    ["new-part-1".toList, "new-part-2".toList]

/-- Claim C4, counterexample: `_save_json` opens the checkpoint path
itself and streams into it. Its trace contains no rename at all, its very
first operation truncates the destination, and interrupting after two
operations leaves a partial checkpoint (one of two chunks) that is
neither the old nor the new content — so the write is not
write-temp-then-rename and not atomic. -/
theorem checkpoint_atomicity_counterexample :
    (cxOps.filter FsOp.isRename) = [] ∧
      cxOps.head? = some (FsOp.openTrunc
        (sessionFileName ("20250101".toList) ("_checkpoint".toList))) ∧
      runFsOps cxFs (cxOps.take 2)
          (sessionFileName ("20250101".toList) ("_checkpoint".toList)) =
        some ["new-part-1".toList] ∧
      runFsOps cxFs (cxOps.take 2)
          (sessionFileName ("20250101".toList) ("_checkpoint".toList)) ≠
        cxFs (sessionFileName ("20250101".toList) ("_checkpoint".toList)) ∧
      runFsOps cxFs (cxOps.take 2)
          (sessionFileName ("20250101".toList) ("_checkpoint".toList)) ≠
        runFsOps cxFs cxOps
          (sessionFileName ("20250101".toList) ("_checkpoint".toList)) := by
  refine ⟨by decide, by decide, by decide, by decide, by decide⟩

/-- Claim C4, amended: on every checkpointing `log_turn` the logger
appends the TurnRecord in memory and writes
`session_<id>_checkpoint.json` by opening that destination directly and
streaming the JSON into it; a completed write leaves the full new
content, but the write is not atomic: no rename is used and there is an
interruption point (right after the truncating open) at which the
checkpoint path holds neither the old nor the new content. -/
theorem checkpoint_write_amended (encode : SessionRecord → List Str)
    (lg : SessionLoggerS) (inp : TurnInput) (sess : SessionRecord)
    (hs : lg.session = some sess) (hcp : inp.checkpoint = true) (fs : Fs)
    (hold : fs (sessionFileName lg.sessionId ("_checkpoint".toList)) ≠
      some [])
    (hnew : ∀ r, encode r ≠ []) :
    ∃ (turn : TurnRecord) (lg' : SessionLoggerS) (sess' : SessionRecord),
      lg.logTurn encode inp =
        .ok (turn, lg', saveCheckpointOps lg.sessionId (encode sess')) ∧
      lg'.session = some sess' ∧
      sess'.turns = sess.turns ++ [turn] ∧
      turn.turnNumber = sess.turns.length + 1 ∧
      (saveCheckpointOps lg.sessionId (encode sess')).filter FsOp.isRename
        = [] ∧
      runFsOps fs (saveCheckpointOps lg.sessionId (encode sess'))
          (sessionFileName lg.sessionId ("_checkpoint".toList)) =
        some (encode sess') ∧
      ∃ k, k < (saveCheckpointOps lg.sessionId (encode sess')).length ∧
        runFsOps fs ((saveCheckpointOps lg.sessionId (encode sess')).take k)
            (sessionFileName lg.sessionId ("_checkpoint".toList)) ≠
          fs (sessionFileName lg.sessionId ("_checkpoint".toList)) ∧
        runFsOps fs ((saveCheckpointOps lg.sessionId (encode sess')).take k)
            (sessionFileName lg.sessionId ("_checkpoint".toList)) ≠
          some (encode sess') := by
  obtain ⟨sid0, ei, sopt, pend⟩ := lg
  dsimp only at hs hold ⊢
  subst hs
  simp only [SessionLoggerS.logTurn, hcp, if_pos]
  refine ⟨_, _, _, rfl, rfl, rfl, rfl, saveJsonOps_no_rename _ _ _,
    runFsOps_saveJson fs _ _ _, 1, ?_, ?_, ?_⟩
  · simp only [saveCheckpointOps, saveJsonOps, List.length_cons,
      List.length_append, List.length_map, List.length_singleton]
    omega
  · rw [show (saveCheckpointOps sid0 (encode _)).take 1 =
        [FsOp.openTrunc (sessionFileName sid0 ("_checkpoint".toList))] from
        rfl]
    rw [runFsOps_openTrunc_only]
    intro h
    exact hold h.symm
  · rw [show (saveCheckpointOps sid0 (encode _)).take 1 =
        [FsOp.openTrunc (sessionFileName sid0 ("_checkpoint".toList))] from
        rfl]
    rw [runFsOps_openTrunc_only]
    intro h
    exact hnew _ (Option.some_injective _ h).symm

/-- Concrete serializer of the checkpoint witness: every session encodes
as one non-empty chunk. -/
def wEncode : SessionRecord → List Str := fun _ => ["{}".toList]

/-- Concrete started logger of the checkpoint and contiguity
witnesses. -/
def wLogger : SessionLoggerS :=
  (SessionLoggerS.init ("20250101".toList) true).startSession
    ("multi_model".toList) ("What is success?".toList) 42

/-- Concrete checkpointing `log_turn` input of the witnesses. -/
def wInput : TurnInput :=
  { agentId := "luma".toList, agentName := "luma-child-voice".toList,
    content := "hello".toList, model := "phi3".toList, temperature := 0,
    latencyMs := 0, embedding := none, promptTokens := none,
    completionTokens := none, checkpoint := true }

/-- Claim C4, witness: the amended checkpoint-write theorem applies to a
concrete started logger, a checkpointing input, and a filesystem holding
an old checkpoint. -/
theorem checkpoint_write_witness :
    ∃ (turn : TurnRecord) (lg' : SessionLoggerS) (sess' : SessionRecord),
      wLogger.logTurn wEncode wInput =
        .ok (turn, lg', saveCheckpointOps wLogger.sessionId (wEncode sess')) ∧
      lg'.session = some sess' ∧
      sess'.turns = [] ++ [turn] ∧
      turn.turnNumber = List.length ([] : List TurnRecord) + 1 ∧
      (saveCheckpointOps wLogger.sessionId (wEncode sess')).filter
        FsOp.isRename = [] ∧
      runFsOps cxFs (saveCheckpointOps wLogger.sessionId (wEncode sess'))
          (sessionFileName wLogger.sessionId ("_checkpoint".toList)) =
        some (wEncode sess') ∧
      ∃ k, k < (saveCheckpointOps wLogger.sessionId (wEncode sess')).length ∧
        runFsOps cxFs
            ((saveCheckpointOps wLogger.sessionId (wEncode sess')).take k)
            (sessionFileName wLogger.sessionId ("_checkpoint".toList)) ≠
          cxFs (sessionFileName wLogger.sessionId ("_checkpoint".toList)) ∧
        runFsOps cxFs
            ((saveCheckpointOps wLogger.sessionId (wEncode sess')).take k)
            (sessionFileName wLogger.sessionId ("_checkpoint".toList)) ≠
          some (wEncode sess') := by
  have h := checkpoint_write_amended wEncode wLogger wInput _ rfl rfl cxFs
    (by decide) (fun r => by simp [wEncode])
  exact h

theorem turns_append_inv (ts : List TurnRecord) (t : TurnRecord)
    (hinv : ∀ i (h : i < ts.length), ts[i].turnNumber = i + 1)
    (ht : t.turnNumber = ts.length + 1) :
    ∀ i (h : i < (ts ++ [t]).length), (ts ++ [t])[i].turnNumber = i + 1 := by
  intro i h
  rcases Nat.lt_or_ge i ts.length with hi | hi
  · rw [List.getElem_append_left hi]
    exact hinv i hi
  · have hieq : i = ts.length := by
      simp only [List.length_append, List.length_singleton] at h
      omega
    rw [List.getElem_concat_length ts t i hieq]
    omega

theorem logTurns_contiguity_inv (encode : SessionRecord → List Str) :
    ∀ (inputs : List TurnInput) (lg : SessionLoggerS)
      (sess : SessionRecord), lg.session = some sess →
      (∀ i (h : i < sess.turns.length), sess.turns[i].turnNumber = i + 1) →
      ∃ sess', (SessionLoggerS.logTurns encode lg inputs).session =
          some sess' ∧
        sess'.turns.length = sess.turns.length + inputs.length ∧
        ∀ i (h : i < sess'.turns.length), sess'.turns[i].turnNumber = i + 1 := by
  intro inputs
  induction inputs with
  | nil =>
    intro lg sess h hinv
    exact ⟨sess, by simpa [SessionLoggerS.logTurns] using h, by simp, hinv⟩
  | cons inp rest ih =>
    intro lg sess h hinv
    obtain ⟨sid0, ei, sopt, pend⟩ := lg
    dsimp only at h
    subst h
    simp only [SessionLoggerS.logTurns, SessionLoggerS.logTurn,
      List.length_cons]
    suffices hstep : ∀ (lg2 : SessionLoggerS) (sess2 : SessionRecord),
        lg2.session = some sess2 →
        sess2.turns.length = sess.turns.length + 1 →
        (∀ i (h : i < sess2.turns.length),
          sess2.turns[i].turnNumber = i + 1) →
        ∃ sess', (SessionLoggerS.logTurns encode lg2 rest).session =
            some sess' ∧
          sess'.turns.length = sess.turns.length + (rest.length + 1) ∧
          ∀ i (h : i < sess'.turns.length),
            sess'.turns[i].turnNumber = i + 1 by
      exact hstep _ _ rfl (by simp)
        (turns_append_inv sess.turns _ hinv rfl)
    intro lg2 sess2 h2 hlen2 hinv2
    obtain ⟨sess', ha, hb, hc⟩ := ih lg2 sess2 h2 hinv2
    exact ⟨sess', ha, by omega, hc⟩

/-- Claim C8: after N `log_turn` calls on a freshly started session, the
turns list holds exactly N records and `turns[i-1].turn_number = i` for
every `i`, because `log_turn` assigns `turn_number = len(turns) + 1` and
appends. -/
theorem turn_contiguity (encode : SessionRecord → List Str)
    (sid mode prov : Str) (emb : Bool) (seed : ℤ)
    (inputs : List TurnInput) :
    ∃ sess, (SessionLoggerS.logTurns encode
        ((SessionLoggerS.init sid emb).startSession mode prov seed)
        inputs).session = some sess ∧
      sess.turns.length = inputs.length ∧
      ∀ i (h : i < sess.turns.length), sess.turns[i].turnNumber = i + 1 := by
  have h := logTurns_contiguity_inv encode inputs
    ((SessionLoggerS.init sid emb).startSession mode prov seed) _ rfl
    (by intro i hi; simp at hi)
  simpa using h

/-- Claim C8, witness: the contiguity theorem applies to the concrete
started logger and two concrete `log_turn` inputs. -/
theorem turn_contiguity_witness :
    ∃ sess, (SessionLoggerS.logTurns wEncode
        ((SessionLoggerS.init ("20250101".toList) true).startSession
          ("multi_model".toList) ("What is success?".toList) 42)
        [wInput, wInput]).session = some sess ∧
      sess.turns.length = ([wInput, wInput] : List TurnInput).length ∧
      ∀ i (h : i < sess.turns.length), sess.turns[i].turnNumber = i + 1 :=
  turn_contiguity wEncode ("20250101".toList) ("multi_model".toList)
    ("What is success?".toList) true 42 [wInput, wInput]

/-- Outcome of one HTTP attempt inside `OllamaClient.generate`, following
the `requests` exceptions the code distinguishes. -/
inductive HttpOutcome where
  | ok (content : Str) (promptTokens completionTokens : Option ℕ)
  | timeout
  | connError
  | requestError
deriving DecidableEq

/-- The error `generate` raises to its caller. -/
inductive GenError where
  | timeoutError
  | connectionError
  | runtimeError
deriving DecidableEq

/-- The observable result of a `generate` call: the content and token
counts or the raised error, the number of HTTP attempts issued, and the
backoff sleeps performed, in seconds, in order. -/
structure GenResult where
  result : Except GenError (Str × Option ℕ × Option ℕ)
  attemptsUsed : ℕ
  waits : List ℕ

/-- The retry loop of `OllamaClient.generate` over attempts
`0 … max_retries − 1`: a timeout sleeps `2^attempt` seconds and retries
(no sleep after the final attempt); a connection error or any other
request error raises at once; running out of attempts raises
`TimeoutError`. `remaining` counts the attempts still allowed, and
`attempt + remaining = maxRetries` at every call. -/
def generateGo (oracle : ℕ → HttpOutcome) (maxRetries : ℕ) :
    ℕ → ℕ → List ℕ → GenResult
  | _, 0, waits =>
    { result := .error .timeoutError, attemptsUsed := maxRetries,
      waits := waits }
  | attempt, r + 1, waits =>
    match oracle attempt with
    | .ok c p q =>
      { result := .ok (c, p, q), attemptsUsed := attempt + 1,
        waits := waits }
    | .timeout =>
      if 0 < r then
        generateGo oracle maxRetries (attempt + 1) r (waits ++ [2 ^ attempt])
      else generateGo oracle maxRetries (attempt + 1) r waits
    | .connError =>
      { result := .error .connectionError, attemptsUsed := attempt + 1,
        waits := waits }
    | .requestError =>
      { result := .error .runtimeError, attemptsUsed := attempt + 1,
        waits := waits }

/-- `OllamaClient.generate(model, messages, …)` with `max_retries`
attempts, over an oracle giving each attempt's HTTP outcome. -/
def generate (oracle : ℕ → HttpOutcome) (maxRetries : ℕ) : GenResult :=
  generateGo oracle maxRetries 0 maxRetries []

theorem generateGo_ok (oracle : ℕ → HttpOutcome) (mr : ℕ) (c : Str)
    (p q : Option ℕ) :
    ∀ (k attempt r : ℕ) (waits : List ℕ), k < r →
      (∀ i, i < k → oracle (attempt + i) = .timeout) →
      oracle (attempt + k) = .ok c p q →
      generateGo oracle mr attempt r waits =
        { result := .ok (c, p, q), attemptsUsed := attempt + k + 1,
          waits := waits ++ (List.range' attempt k).map (2 ^ ·) } := by
  intro k
  induction k with
  | zero =>
    intro attempt r waits hk _ hok
    match r, hk with
    | r' + 1, _ =>
      rw [generateGo]
      simp only [Nat.add_zero] at hok
      rw [hok]
      simp
  | succ k ih =>
    intro attempt r waits hk htime hok
    match r, hk with
    | r' + 1, _ =>
      have hr' : k < r' := by omega
      have h0 : oracle attempt = .timeout := by
        have := htime 0 (Nat.succ_pos k)
        simpa using this
      rw [generateGo, h0]
      simp only [show 0 < r' from by omega, if_pos]
      have := ih (attempt + 1) r' (waits ++ [2 ^ attempt]) hr'
        (fun i hi => by
          have := htime (i + 1) (by omega)
          simpa [Nat.add_assoc, Nat.add_comm 1 i] using this)
        (by simpa [Nat.add_assoc, Nat.add_comm 1 k] using hok)
      rw [this]
      simp [List.range'_succ, Nat.add_assoc, Nat.add_comm 1 k]

theorem generateGo_exhaust (oracle : ℕ → HttpOutcome) (mr : ℕ) :
    ∀ (r attempt : ℕ) (waits : List ℕ), 0 < r →
      (∀ i, i < r → oracle (attempt + i) = .timeout) →
      generateGo oracle mr attempt r waits =
        { result := .error .timeoutError, attemptsUsed := mr,
          waits := waits ++ (List.range' attempt (r - 1)).map (2 ^ ·) } := by
  intro r
  induction r with
  | zero => intro attempt waits h; omega
  | succ r ih =>
    intro attempt waits _ htime
    have h0 : oracle attempt = .timeout := by
      have := htime 0 (Nat.succ_pos r)
      simpa using this
    rw [generateGo, h0]
    by_cases hr : 0 < r
    · simp only [hr, if_pos]
      have := ih (attempt + 1) (waits ++ [2 ^ attempt]) hr
        (fun i hi => by
          have := htime (i + 1) (by omega)
          simpa [Nat.add_assoc, Nat.add_comm 1 i] using this)
      rw [this]
      have hr1 : r = (r - 1) + 1 := by omega
      rw [show List.range' attempt (r + 1 - 1) = List.range' attempt r from
        by simp]
      rw [hr1, List.range'_succ]
      simp [Nat.add_assoc]
    · have hr0 : r = 0 := by omega
      subst hr0
      simp only [lt_irrefl, if_neg, not_false_iff]
      rw [generateGo]
      simp

/-- Claim C7, counterexample: with `max_retries = 3` and an oracle whose
first attempt hits a connection error while a second attempt would
succeed, `generate` raises `ConnectionError` after exactly one HTTP
attempt, with no backoff sleep: connection errors are not retried at the
HTTP layer. -/
theorem llm_retry_counterexample :
    generate
        (fun n => if n = 0 then .connError
          else .ok ("ok".toList) none none) 3 =
      { result := .error .connectionError, attemptsUsed := 1,
        waits := [] } := rfl

/-- Claim C7, amended: in `OllamaClient.generate` only timeouts are
retried at the HTTP layer, up to `max_retries` attempts (default 3) with
`2^attempt` seconds of backoff between attempts, and only after
exhausting all attempts does the call raise `TimeoutError`; a connection
error (like any other request error) raises to the caller immediately,
after a single attempt and with no backoff. -/
theorem llm_retry_amended :
    (∀ (oracle : ℕ → HttpOutcome) (mr k : ℕ) (c : Str) (p q : Option ℕ),
      k < mr → (∀ i, i < k → oracle i = .timeout) → oracle k = .ok c p q →
      generate oracle mr =
        { result := .ok (c, p, q), attemptsUsed := k + 1,
          waits := (List.range k).map (2 ^ ·) }) ∧
    (∀ (oracle : ℕ → HttpOutcome) (mr : ℕ), 0 < mr →
      (∀ i, i < mr → oracle i = .timeout) →
      generate oracle mr =
        { result := .error .timeoutError, attemptsUsed := mr,
          waits := (List.range (mr - 1)).map (2 ^ ·) }) ∧
    (∀ (oracle : ℕ → HttpOutcome) (mr : ℕ), 0 < mr →
      oracle 0 = .connError →
      generate oracle mr =
        { result := .error .connectionError, attemptsUsed := 1,
          waits := [] }) := by
  refine ⟨?_, ?_, ?_⟩
  · intro oracle mr k c p q hk htime hok
    have := generateGo_ok oracle mr c p q k 0 mr [] hk
      (fun i hi => by simpa using htime i hi) (by simpa using hok)
    simpa [generate, List.range_eq_range'] using this
  · intro oracle mr hmr htime
    have := generateGo_exhaust oracle mr mr 0 [] hmr
      (fun i hi => by simpa using htime i hi)
    simpa [generate, List.range_eq_range'] using this
  · intro oracle mr hmr hconn
    match mr, hmr with
    | m + 1, _ =>
      rw [generate, generateGo, hconn]

/-- Claim C7, witness: the amended retry theorem applies to concrete
oracles with `max_retries = 3` — two timeouts then success (sleeps 1 s
and 2 s), three timeouts (exhaustion), and an immediate connection
error. -/
theorem llm_retry_witness :
    generate (fun n => if n < 2 then .timeout
        else .ok ("hi".toList) (some 5) (some 7)) 3 =
      { result := .ok ("hi".toList, some 5, some 7), attemptsUsed := 3,
        waits := [1, 2] } ∧
    generate (fun _ => .timeout) 3 =
      { result := .error .timeoutError, attemptsUsed := 3,
        waits := [1, 2] } ∧
    generate (fun _ => .connError) 3 =
      { result := .error .connectionError, attemptsUsed := 1,
        waits := [] } := by
  refine ⟨?_, ?_, ?_⟩
  · have := llm_retry_amended.1
      (fun n => if n < 2 then .timeout else .ok ("hi".toList) (some 5) (some 7))
      3 2 ("hi".toList) (some 5) (some 7) (by decide) (by decide) (by decide)
    simpa using this
  · have := llm_retry_amended.2.1 (fun _ => .timeout) 3 (by decide)
      (fun i _ => rfl)
    simpa using this
  · exact llm_retry_amended.2.2 (fun _ => .connError) 3 (by decide) rfl

/-- Python's slice `lst[-n:]`: the whole list when `n = 0`, otherwise the
last `n` elements. -/
def pySliceLast {α : Type} (n : ℕ) (l : List α) : List α :=
  if n = 0 then l else l.drop (l.length - n)

/-- `basins.BasinHistory`: the bounded basin sequence with its
current/previous basin pointers, entry turn, and transition counter. -/
structure BasinHistory where
  maxHistory : ℕ
  history : List (ℕ × Str × ℚ)
  currentBasin : Option Str
  previousBasin : Option Str
  basinEntryTurn : ℕ
  transitionCount : ℕ

/-- `BasinHistory(max_history=100)`. -/
def BasinHistory.init (maxHistory : ℕ := 100) : BasinHistory :=
  ⟨maxHistory, [], none, none, 0, 0⟩

/-- `BasinHistory.append(basin, confidence, turn)`: count a transition
when the label differs from the current basin, push the entry, then trim
the stored history to the last `max_history` entries — without
recomputing the transition counter. -/
def BasinHistory.append (h : BasinHistory) (basin : Str) (confidence : ℚ)
    (turn : Option ℕ) : BasinHistory :=
  let turnv := turn.getD h.history.length
  let step1 :=
    match h.currentBasin with
    | some c =>
      if basin ≠ c then
        { h with
          previousBasin := some c, basinEntryTurn := turnv,
          transitionCount := h.transitionCount + 1 }
      else h
    | none => { h with basinEntryTurn := turnv }
  let step2 := { step1 with
    currentBasin := some basin,
    history := step1.history ++ [(turnv, basin, confidence)] }
  if step2.history.length > h.maxHistory then
    { step2 with history := pySliceLast h.maxHistory step2.history }
  else step2

/-- The stored basin labels, in order. -/
def BasinHistory.labels (h : BasinHistory) : List Str :=
  h.history.map (fun e => e.2.1)

/-- `BasinHistory.get_residence_time`: consecutive trailing entries whose
label equals the current basin. -/
def BasinHistory.residenceTime (h : BasinHistory) : ℕ :=
  match h.history with
  | [] => 0
  | _ =>
    (h.history.reverse.takeWhile
      (fun e => decide (some e.2.1 = h.currentBasin))).length

/-- Append a whole run of `(basin, confidence)` entries with
`turn = None`. -/
def BasinHistory.appendAll : BasinHistory → List (Str × ℚ) → BasinHistory
  | h, [] => h
  | h, e :: rest => BasinHistory.appendAll (h.append e.1 e.2 none) rest

/-- The number of adjacent pairs with differing labels in a label
sequence. -/
def adjDiffCount : List Str → ℕ
  | [] => 0
  | [_] => 0
  | a :: b :: rest => (if a ≠ b then 1 else 0) + adjDiffCount (b :: rest)

/-- `basins.DialogueContext` (defaults as in the source). -/
structure DialogueContextB where
  hedgingDensity : ℚ := 0
  turnLengthVariance : ℚ := 0
  deltaKappaVariance : ℚ := 0
  voiceDistinctiveness : ℚ := 0
  coherencePattern : Str := "transitional".toList

/-- `basins.BasinDetector` configuration (defaults as in the source). -/
structure BasinDetector where
  residenceConfidenceModulation : Bool := true
  newEntryPenalty : ℚ := 7/10
  settledBonus : ℚ := 11/10
  settledThreshold : ℕ := 5

/-- `BasinDetector._classify_basin`: the rule cascade over the Ψ
components (`sem`, `temp`, `aff` after the dict extraction), `Δκ`, and
the dialogue context. Python's `max` over a dict returns the first key
attaining the maximum in insertion order, which the `≥`-chains mirror. -/
def classifyBasin (sem temp aff deltaKappa : ℚ) (ctx : DialogueContextB) :
    Str × ℚ :=
  let hedging := ctx.hedgingDensity
  let voiceDist := ctx.voiceDistinctiveness
  let dkVariance := ctx.deltaKappaVariance
  let coherence := ctx.coherencePattern
  if sem > 4/10 ∧ aff > 4/10 ∧ voiceDist > 3/10 then
    ("Deep Resonance".toList, min (min |sem| |aff|) voiceDist)
  else if |sem| < 2/10 ∧ |aff| < 2/10 then
    ("Dissociation".toList, 1 - max |sem| |aff|)
  else if |sem| > 3/10 ∧ deltaKappa > 35/100 ∧ aff > 3/10 then
    ("Generative Conflict".toList, min (deltaKappa / (7/10)) |aff|)
  else if deltaKappa > 35/100 ∧ aff > 3/10 then
    ("Creative Dilation".toList, (deltaKappa / (7/10)) * |aff|)
  else if sem > 3/10 ∧ deltaKappa < 35/100 ∧ aff < 2/10 ∧
      voiceDist < 3/10 then
    ("Sycophantic Convergence".toList,
      sem * (1 - deltaKappa / (35/100)) * (1 - voiceDist))
  else if |sem| > 3/10 ∧ aff < 2/10 then
    let inquiryScore :=
      (if hedging > 2/100 then (3 : ℚ)/10 else 0) +
        (if voiceDist > 3/10 then 3/10 else 0) +
        (if dkVariance > 1/100 then 2/10 else 0) +
        (if coherence = "breathing".toList then 2/10 else 0)
    let mimicryScore :=
      (if hedging < 1/100 then (3 : ℚ)/10 else 0) +
        (if voiceDist < 2/10 then 3/10 else 0) +
        (if dkVariance < 5/1000 then 2/10 else 0) +
        (if coherence = "locked".toList ∨
            coherence = "transitional".toList then 2/10 else 0)
    let reflexiveScore :=
      (if 1/100 ≤ hedging ∧ hedging ≤ 3/100 then (3 : ℚ)/10 else 0) +
        (if 5/1000 ≤ dkVariance ∧ dkVariance ≤ 15/1000 then 3/10 else 0) +
        (if coherence = "transitional".toList then 2/10 else 0) +
        (if 2/10 ≤ voiceDist ∧ voiceDist ≤ 4/10 then 2/10 else 0)
    let bestBasin :=
      if inquiryScore ≥ mimicryScore ∧ inquiryScore ≥ reflexiveScore then
        "Collaborative Inquiry".toList
      else if mimicryScore ≥ reflexiveScore then "Cognitive Mimicry".toList
      else "Reflexive Performance".toList
    let bestScore := max inquiryScore (max mimicryScore reflexiveScore)
    let secondScore :=
      if inquiryScore = bestScore then max mimicryScore reflexiveScore
      else if mimicryScore = bestScore then max inquiryScore reflexiveScore
      else max inquiryScore mimicryScore
    let confidence :=
      if bestScore - secondScore < 1/10 then |sem| * (1/2)
      else |sem| * (1/2 + bestScore * (1/2))
    (bestBasin, confidence)
  else
    let semM := |sem|
    let affM := |aff|
    let tempM := |temp - 1/2|
    if semM ≥ affM ∧ semM ≥ tempM then
      if deltaKappa > 35/100 then ("Creative Dilation".toList, semM)
      else ("Transitional".toList, 3/10)
    else if affM ≥ tempM then
      ((if deltaKappa > 35/100 then "Generative Conflict".toList
        else "Cognitive Mimicry".toList), affM)
    else ("Transitional".toList, 3/10)

/-- `BasinDetector.detect`: classify, then apply the residence-confidence
modulation against the history — the new-entry penalty both when there is
no current basin yet and when the label changed, the capped settled bonus
after `settled_threshold` turns of residence. -/
def BasinDetector.detect (d : BasinDetector) (sem temp aff deltaKappa : ℚ)
    (ctx : DialogueContextB) (basinHistory : Option BasinHistory) :
    Str × ℚ :=
  let r := classifyBasin sem temp aff deltaKappa ctx
  match basinHistory with
  | none => r
  | some hist =>
    if d.residenceConfidenceModulation then
      match hist.currentBasin with
      | none => (r.1, r.2 * d.newEntryPenalty)
      | some current =>
        if r.1 ≠ current then (r.1, r.2 * d.newEntryPenalty)
        else if hist.residenceTime ≥ d.settledThreshold then
          (r.1, min 1 (r.2 * d.settledBonus))
        else r
    else r

/-- The composite step of `affective.compute_affective_substrate`
(the cited lines): normalize the four components by the reference
ceilings `(0.5, 0.1, 0.05, 0.01)` with clipping at 1, combine with
weights `0.3/0.3/0.3/0.1`. -/
def psiRawAffective (sentimentVariance hedgingDensity vulnerabilityScore
    confidenceVariance : ℚ) : ℚ :=
  let sentimentNorm := min (sentimentVariance / (5/10)) 1
  let hedgingNorm := min (hedgingDensity / (1/10)) 1
  let vulnerabilityNorm := min (vulnerabilityScore / (5/100)) 1
  let confidenceNorm := min (confidenceVariance / (1/100)) 1
  3/10 * sentimentNorm + 3/10 * hedgingNorm + 3/10 * vulnerabilityNorm +
    1/10 * confidenceNorm

/-- `psi_affective = tanh(2·(psi_raw − 0.5))` from `affective.py`. -/
noncomputable def psiAffective (sv hd vs cv : ℚ) : ℝ :=
  Real.tanh (2 * (((psiRawAffective sv hd vs cv : ℚ) : ℝ) - 1/2))

/-- The composite step of `basins.compute_affective_substrate` (the cited
lines): only three components, ceilings `(0.5, 0.1, 0.05)`, weights
`0.4/0.3/0.3`, and no confidence term. -/
def psiRawAffectiveBasins (sentimentVariance hedgingDensity
    vulnerabilityScore : ℚ) : ℚ :=
  let sentimentNorm := min (sentimentVariance / (5/10)) 1
  let hedgingNorm := min (hedgingDensity / (1/10)) 1
  let vulnerabilityNorm := min (vulnerabilityScore / (5/100)) 1
  4/10 * sentimentNorm + 3/10 * hedgingNorm + 3/10 * vulnerabilityNorm

/-- `psi_affective` as computed by `basins.compute_affective_substrate`. -/
noncomputable def psiAffectiveBasins (sv hd vs : ℚ) : ℝ :=
  Real.tanh (2 * (((psiRawAffectiveBasins sv hd vs : ℚ) : ℝ) - 1/2))

theorem adjDiffCount_append (b : Str) :
    ∀ ls : List Str, adjDiffCount (ls ++ [b]) =
      adjDiffCount ls + (match ls.getLast? with
        | none => 0
        | some a => if a ≠ b then 1 else 0) := by
  intro ls
  induction ls with
  | nil => simp [adjDiffCount]
  | cons a t ih =>
    cases t with
    | nil => simp [adjDiffCount, List.getLast?_singleton, Nat.add_comm]
    | cons c r =>
      rw [List.cons_append, List.cons_append]
      rw [show adjDiffCount (a :: c :: (r ++ [b])) =
          (if a ≠ c then 1 else 0) + adjDiffCount (c :: (r ++ [b])) from
          rfl]
      rw [show (c :: (r ++ [b])) = (c :: r) ++ [b] from rfl, ih]
      rw [show adjDiffCount (a :: c :: r) =
          (if a ≠ c then 1 else 0) + adjDiffCount (c :: r) from rfl]
      rw [List.getLast?_cons_cons]
      omega

theorem BasinHistory.append_maxHistory (h : BasinHistory) (b : Str)
    (conf : ℚ) (t : Option ℕ) :
    (h.append b conf t).maxHistory = h.maxHistory := by
  rw [BasinHistory.append]
  cases h.currentBasin <;> dsimp only <;> split_ifs <;> rfl

theorem BasinHistory.append_currentBasin (h : BasinHistory) (b : Str)
    (conf : ℚ) (t : Option ℕ) :
    (h.append b conf t).currentBasin = some b := by
  rw [BasinHistory.append]
  cases h.currentBasin <;> dsimp only <;> split_ifs <;> rfl

theorem BasinHistory.append_transitionCount (h : BasinHistory) (b : Str)
    (conf : ℚ) (t : Option ℕ) :
    (h.append b conf t).transitionCount =
      h.transitionCount + (match h.currentBasin with
        | none => 0
        | some c => if b ≠ c then 1 else 0) := by
  rw [BasinHistory.append]
  cases h.currentBasin with
  | none =>
    dsimp only
    split_ifs <;> rfl
  | some c =>
    dsimp only
    split_ifs <;> rfl

theorem BasinHistory.append_labels_fit (h : BasinHistory) (b : Str)
    (conf : ℚ) (t : Option ℕ)
    (hfit : h.history.length + 1 ≤ h.maxHistory) :
    (h.append b conf t).labels = h.labels ++ [b] := by
  rw [BasinHistory.append]
  cases h.currentBasin with
  | none =>
    dsimp only
    rw [if_neg (by simp only [List.length_append, List.length_singleton, gt_iff_lt, not_lt]; omega)]
    simp [BasinHistory.labels]
  | some c =>
    dsimp only
    by_cases hbc : b ≠ c
    · rw [if_pos hbc]
      rw [if_neg (by simp only [List.length_append, List.length_singleton, gt_iff_lt, not_lt]; omega)]
      simp [BasinHistory.labels]
    · rw [if_neg hbc]
      rw [if_neg (by simp only [List.length_append, List.length_singleton, gt_iff_lt, not_lt]; omega)]
      simp [BasinHistory.labels]

theorem basin_append_step (h : BasinHistory) (ls : List Str) (b : Str)
    (conf : ℚ) (hcur : h.currentBasin = ls.getLast?)
    (htr : h.transitionCount = adjDiffCount ls)
    (hlab : ls.length ≤ h.maxHistory → h.labels = ls) :
    (h.append b conf none).maxHistory = h.maxHistory ∧
      (h.append b conf none).currentBasin = (ls ++ [b]).getLast? ∧
      (h.append b conf none).transitionCount = adjDiffCount (ls ++ [b]) ∧
      ((ls ++ [b]).length ≤ h.maxHistory →
        (h.append b conf none).labels = ls ++ [b]) := by
  refine ⟨h.append_maxHistory b conf none, ?_, ?_, ?_⟩
  · rw [h.append_currentBasin b conf none, List.getLast?_concat]
  · rw [h.append_transitionCount b conf none, adjDiffCount_append b ls,
      htr, hcur]
    cases ls.getLast? with
    | none => rfl
    | some a =>
      dsimp only
      by_cases hba : b = a
      · subst hba
        simp
      · simp [hba, Ne.symm hba]
  · intro hle
    simp only [List.length_append, List.length_singleton] at hle
    have hlab' : h.labels = ls := hlab (by omega)
    have hhlen : h.history.length = ls.length := by
      have := congrArg List.length hlab'
      simpa [BasinHistory.labels] using this
    rw [h.append_labels_fit b conf none (by omega), hlab']

theorem basin_appendAll_inv :
    ∀ (entries : List (Str × ℚ)) (h : BasinHistory) (ls : List Str),
      h.currentBasin = ls.getLast? →
      h.transitionCount = adjDiffCount ls →
      (ls.length ≤ h.maxHistory → h.labels = ls) →
      (h.appendAll entries).maxHistory = h.maxHistory ∧
        (h.appendAll entries).currentBasin =
          (ls ++ entries.map Prod.fst).getLast? ∧
        (h.appendAll entries).transitionCount =
          adjDiffCount (ls ++ entries.map Prod.fst) ∧
        ((ls ++ entries.map Prod.fst).length ≤ h.maxHistory →
          (h.appendAll entries).labels = ls ++ entries.map Prod.fst) := by
  intro entries
  induction entries with
  | nil =>
    intro h ls hcur htr hlab
    rw [show (List.map Prod.fst ([] : List (Str × ℚ))) = [] from rfl,
      List.append_nil]
    exact ⟨rfl, hcur, htr, hlab⟩
  | cons e rest ih =>
    intro h ls hcur htr hlab
    obtain ⟨hm, hc, ht, hl⟩ := basin_append_step h ls e.1 e.2 hcur htr hlab
    have := ih (h.append e.1 e.2 none) (ls ++ [e.1]) hc ht
      (fun hle => hl (by rw [hm] at hle; exact hle))
    rw [hm] at this
    simpa [BasinHistory.appendAll, List.append_assoc] using this

/-- Concrete run of the transition-count counterexample: three appends
into a history bounded at 2 entries. -/
def basinCxRun : BasinHistory :=
  (BasinHistory.init 2).appendAll
    [("Dissociation".toList, 1), ("Transitional".toList, 1),
      ("Dissociation".toList, 1)]

/-- Claim C9, counterexample: after appending the labels Dissociation,
Transitional, Dissociation into a `BasinHistory` with `max_history = 2`,
the transition counter is 2 but the stored (truncated) history holds only
one adjacent differing pair — truncation never recomputes the counter. -/
theorem basin_transition_counterexample :
    basinCxRun.transitionCount = 2 ∧
      adjDiffCount basinCxRun.labels = 1 ∧
      basinCxRun.transitionCount ≠ adjDiffCount basinCxRun.labels := by
  refine ⟨by decide, by decide, by decide⟩

/-- Claim C9, amended: `transition_count` equals the number of adjacent
differing labels in the full sequence of labels ever appended; this
coincides with the count over the stored history exactly while no
truncation has occurred (at most `max_history` entries appended). -/
theorem basin_transition_amended (maxH : ℕ) (entries : List (Str × ℚ)) :
    ((BasinHistory.init maxH).appendAll entries).transitionCount =
      adjDiffCount (entries.map Prod.fst) ∧
      (entries.length ≤ maxH →
        adjDiffCount (((BasinHistory.init maxH).appendAll entries).labels) =
          ((BasinHistory.init maxH).appendAll entries).transitionCount) := by
  obtain ⟨hm, hc, ht, hl⟩ := basin_appendAll_inv entries
    (BasinHistory.init maxH) [] rfl rfl (fun _ => rfl)
  simp only [List.nil_append] at ht hl
  refine ⟨ht, fun hle => ?_⟩
  rw [hl (by simpa using hle), ht]

/-- Claim C9, witness: the amended theorem applies to a run of three
appends that fits inside the default bound 100, where the counter and the
stored adjacent-differing count agree (both are 2). -/
theorem basin_transition_witness :
    ((BasinHistory.init 100).appendAll
        [("Dissociation".toList, 1), ("Transitional".toList, 1),
          ("Dissociation".toList, 1)]).transitionCount =
      adjDiffCount ([("Dissociation".toList, (1 : ℚ)),
        ("Transitional".toList, 1),
        ("Dissociation".toList, 1)].map Prod.fst) ∧
      adjDiffCount (((BasinHistory.init 100).appendAll
          [("Dissociation".toList, 1), ("Transitional".toList, 1),
            ("Dissociation".toList, 1)]).labels) =
        ((BasinHistory.init 100).appendAll
          [("Dissociation".toList, 1), ("Transitional".toList, 1),
            ("Dissociation".toList, 1)]).transitionCount :=
  ⟨(basin_transition_amended 100 _).1,
    (basin_transition_amended 100 _).2 (by decide)⟩

/-- Claim C10: when `detect` is called with a basin history whose current
basin is not yet set (the first classification of a session) and
residence-confidence modulation is enabled (the default detector), the
returned confidence is the raw classifier confidence multiplied by the
0.7 new-entry penalty, although no basin transition has occurred. -/
theorem first_detect_entry_penalty (sem temp aff dk : ℚ)
    (ctx : DialogueContextB) (h : BasinHistory)
    (hcur : h.currentBasin = none) :
    (BasinDetector.detect {} sem temp aff dk ctx (some h)).2 =
      (classifyBasin sem temp aff dk ctx).2 * (7/10) ∧
      (BasinDetector.detect {} sem temp aff dk ctx (some h)).1 =
        (classifyBasin sem temp aff dk ctx).1 := by
  rw [BasinDetector.detect]
  simp only [hcur]
  exact ⟨rfl, rfl⟩

/-- Claim C10, witness: the entry-penalty theorem applies to the neutral
Ψ-vector, zero Δκ, the default context, and a fresh history. -/
theorem first_detect_entry_penalty_witness :
    (BasinDetector.detect {} 0 (1/2) 0 0 {} (some (BasinHistory.init 100))).2 =
      (classifyBasin 0 (1/2) 0 0 {}).2 * (7/10) ∧
      (BasinDetector.detect {} 0 (1/2) 0 0 {}
          (some (BasinHistory.init 100))).1 =
        (classifyBasin 0 (1/2) 0 0 {}).1 :=
  first_detect_entry_penalty 0 (1/2) 0 0 {} (BasinHistory.init 100) rfl

theorem tanh_mem_Ioo (x : ℝ) : -1 < Real.tanh x ∧ Real.tanh x < 1 := by
  have hc : 0 < Real.cosh x := Real.cosh_pos x
  rw [Real.tanh_eq_sinh_div_cosh]
  constructor
  · rw [lt_div_iff₀ hc]
    have h1 : 0 < Real.cosh x + Real.sinh x := by
      rw [Real.cosh_add_sinh]
      exact Real.exp_pos x
    nlinarith
  · rw [div_lt_one hc]
    have h2 : 0 < Real.cosh x - Real.sinh x := by
      rw [Real.cosh_sub_sinh]
      exact Real.exp_pos (-x)
    linarith

theorem clip_norm_bounds {x c : ℚ} (hx : 0 ≤ x) (hc : 0 < c) :
    0 ≤ min (x / c) 1 ∧ min (x / c) 1 ≤ 1 :=
  ⟨le_min (div_nonneg hx hc.le) zero_le_one, min_le_right _ _⟩

/-- Claim C3, counterexample: the composite in
`basins.compute_affective_substrate` does not combine the components as
the claim states. At sentiment-variance `0.5` (the ceiling) and all other
components `0`, it yields `psi_raw = 0.4` (weight 0.4 on sentiment, no
confidence term), while the claimed formula
`0.3·sent + 0.3·hedge + 0.3·vuln + 0.1·conf` yields `0.3`. -/
theorem affective_weights_counterexample :
    psiRawAffectiveBasins (1/2) 0 0 = 4/10 ∧
      psiRawAffective (1/2) 0 0 0 = 3/10 ∧
      psiRawAffectiveBasins (1/2) 0 0 ≠ psiRawAffective (1/2) 0 0 0 := by
  refine ⟨?_, ?_, ?_⟩ <;>
    norm_num [psiRawAffective, psiRawAffectiveBasins, min_def]

/-- Claim C3, amended: the composite in `affective.py` is exactly as the
claim states — for non-negative components, each normalization
`min(component/ceiling, 1)` lies in `[0, 1]` with ceilings
`(0.5, 0.1, 0.05, 0.01)`, `psi_raw = 0.3·sent + 0.3·hedge + 0.3·vuln +
0.1·conf` lies in `[0, 1]`, and `psi_affective = tanh(2·(psi_raw − 0.5))`
lies strictly inside `[−1, 1]`. The duplicate composite in `basins.py`
(used by `compute_psi_vector` in the streaming path) instead uses weights
`0.4/0.3/0.3` with no confidence term, as the counterexample shows. -/
theorem affective_composite_amended (sv hd vs cv : ℚ) (hsv : 0 ≤ sv)
    (hhd : 0 ≤ hd) (hvs : 0 ≤ vs) (hcv : 0 ≤ cv) :
    (0 ≤ min (sv / (5/10)) 1 ∧ min (sv / (5/10)) 1 ≤ 1) ∧
      (0 ≤ min (hd / (1/10)) 1 ∧ min (hd / (1/10)) 1 ≤ 1) ∧
      (0 ≤ min (vs / (5/100)) 1 ∧ min (vs / (5/100)) 1 ≤ 1) ∧
      (0 ≤ min (cv / (1/100)) 1 ∧ min (cv / (1/100)) 1 ≤ 1) ∧
      psiRawAffective sv hd vs cv =
        3/10 * min (sv / (5/10)) 1 + 3/10 * min (hd / (1/10)) 1 +
          3/10 * min (vs / (5/100)) 1 + 1/10 * min (cv / (1/100)) 1 ∧
      0 ≤ psiRawAffective sv hd vs cv ∧ psiRawAffective sv hd vs cv ≤ 1 ∧
      psiAffective sv hd vs cv =
        Real.tanh (2 * (((psiRawAffective sv hd vs cv : ℚ) : ℝ) - 1/2)) ∧
      -1 ≤ psiAffective sv hd vs cv ∧ psiAffective sv hd vs cv ≤ 1 := by
  obtain ⟨h1a, h1b⟩ := clip_norm_bounds hsv (by norm_num : (0:ℚ) < 5/10)
  obtain ⟨h2a, h2b⟩ := clip_norm_bounds hhd (by norm_num : (0:ℚ) < 1/10)
  obtain ⟨h3a, h3b⟩ := clip_norm_bounds hvs (by norm_num : (0:ℚ) < 5/100)
  obtain ⟨h4a, h4b⟩ := clip_norm_bounds hcv (by norm_num : (0:ℚ) < 1/100)
  obtain ⟨htl, htr⟩ :=
    tanh_mem_Ioo (2 * (((psiRawAffective sv hd vs cv : ℚ) : ℝ) - 1/2))
  refine ⟨⟨h1a, h1b⟩, ⟨h2a, h2b⟩, ⟨h3a, h3b⟩, ⟨h4a, h4b⟩, rfl, ?_, ?_,
    rfl, ?_, ?_⟩
  · unfold psiRawAffective
    nlinarith
  · unfold psiRawAffective
    nlinarith
  · exact le_of_lt htl
  · exact le_of_lt htr

/-- Claim C3, witness: the amended composite theorem applies at all-zero
components, where `psi_raw = 0` and `psi_affective = tanh(−1) ∈ [−1,1]`. -/
theorem affective_composite_witness :
    (0 ≤ min ((0 : ℚ) / (5/10)) 1 ∧ min ((0 : ℚ) / (5/10)) 1 ≤ 1) ∧
      (0 ≤ min ((0 : ℚ) / (1/10)) 1 ∧ min ((0 : ℚ) / (1/10)) 1 ≤ 1) ∧
      (0 ≤ min ((0 : ℚ) / (5/100)) 1 ∧ min ((0 : ℚ) / (5/100)) 1 ≤ 1) ∧
      (0 ≤ min ((0 : ℚ) / (1/100)) 1 ∧ min ((0 : ℚ) / (1/100)) 1 ≤ 1) ∧
      psiRawAffective 0 0 0 0 =
        3/10 * min ((0 : ℚ) / (5/10)) 1 + 3/10 * min ((0 : ℚ) / (1/10)) 1 +
          3/10 * min ((0 : ℚ) / (5/100)) 1 +
          1/10 * min ((0 : ℚ) / (1/100)) 1 ∧
      0 ≤ psiRawAffective 0 0 0 0 ∧ psiRawAffective 0 0 0 0 ≤ 1 ∧
      psiAffective 0 0 0 0 =
        Real.tanh (2 * (((psiRawAffective 0 0 0 0 : ℚ) : ℝ) - 1/2)) ∧
      -1 ≤ psiAffective 0 0 0 0 ∧ psiAffective 0 0 0 0 ≤ 1 :=
  affective_composite_amended 0 0 0 0 le_rfl le_rfl le_rfl le_rfl

end MASE
